import Mathlib

/-!
Verification of the OSIS importer (`tools/django_importer/import_osis_en.py`).

The importer is a single sequential fold over an XML event stream
(lxml `iterparse` with `start`/`end` events).  We embed it shallowly:

* strings are `List Char`, and the Python string operations used by the
  source (`strip`, `split`, `split('.')`, `isdigit`, `replace`,
  `','.join`, `re.findall`) are re-implemented with Python semantics;
* the Django ORM sink is modelled as lists of records inside the state,
  together with logs of the sink calls (`text_updates` for
  `save(update_fields=['text'])`, `bulk_batches` for `bulk_create`);
* each `iterparse` event carries exactly the data the source reads from
  the element: local name, the attributes accessed via `element.get`,
  the direct text, the trailing text, and (for book divs) the text of the
  `title` sub-element located by `element.find`.
-/

namespace OsisImport

abbrev Str := List Char

def chars (s : String) : Str := s.toList

/-- Python whitespace characters (the ones `str.strip`/`str.split` treat as blank). -/
def isPySpace (c : Char) : Bool :=
  ([' ', '\t', '\n', '\r', '\x0b', '\x0c'] : List Char).contains c

/-- Python `str.strip()`: drop leading and trailing whitespace. -/
def strip (s : Str) : Str :=
  ((s.dropWhile isPySpace).reverse.dropWhile isPySpace).reverse

/-- Worker for `str.split()` with no separator: `acc` holds the current word, reversed. -/
def splitWSAux : Str → Str → List Str
  | [], acc => if acc = [] then [] else [acc.reverse]
  | c :: cs, acc =>
    if isPySpace c then
      if acc = [] then splitWSAux cs [] else acc.reverse :: splitWSAux cs []
    else splitWSAux cs (c :: acc)

/-- Python `str.split()` (no argument): split on whitespace runs, no empty parts. -/
def pySplit (s : Str) : List Str := splitWSAux s []

/-- Worker for `str.split('.')`. -/
def splitDotAux : Str → Str → List Str
  | [], acc => [acc.reverse]
  | c :: cs, acc => if c = '.' then acc.reverse :: splitDotAux cs [] else splitDotAux cs (c :: acc)

/-- Python `str.split('.')`: separator split, empty parts kept, never returns `[]`. -/
def splitDot (s : Str) : List Str := splitDotAux s []

/-- Python `str.isdigit()` restricted to ASCII: non-empty and all decimal digits. -/
def isdigit (s : Str) : Bool := decide (s ≠ []) && s.all Char.isDigit

/-- Python `int(s)` on a digit string. -/
def toNatDigits (s : Str) : Nat := s.foldl (fun n c => 10 * n + (c.toNat - 48)) 0

/-- Python `s.replace('strong:', '')`: remove every occurrence, left to right. -/
def replaceStrong : Str → Str
  | 's' :: 't' :: 'r' :: 'o' :: 'n' :: 'g' :: ':' :: rest => replaceStrong rest
  | c :: cs => c :: replaceStrong cs
  | [] => []

/-- Python `sep.join(parts)`. -/
def joinWith (sep : Str) : List Str → Str
  | [] => []
  | [p] => p
  | p :: ps => p ++ sep ++ joinWith sep ps

/-- A character matched by `[\w'-]` in the source's token regex (ASCII scope). -/
def isWordTokChar (c : Char) : Bool :=
  c.isAlphanum || c = '_' || c = '-' || c.toNat = 39

/-- A character matched by `[.,;!?:]` in the source's token regex. -/
def isPunctTokChar (c : Char) : Bool :=
  (['.', ',', ';', '!', '?', ':'] : List Char).contains c

/-- Worker for `re.findall(r"[\w'-]+|[.,;!?:]", s)`: `acc` holds the current
word run, reversed; characters matching neither alternative are skipped. -/
def findTokensAux : Str → Str → List Str
  | [], acc => if acc = [] then [] else [acc.reverse]
  | c :: cs, acc =>
    if isWordTokChar c then findTokensAux cs (c :: acc)
    else
      (if acc = [] then [] else [acc.reverse]) ++
        (if isPunctTokChar c then [c] :: findTokensAux cs [] else findTokensAux cs [])

/-- `re.findall(r"[\w'-]+|[.,;!?:]", s)`: word runs and single punctuation marks. -/
def findTokens (s : Str) : List Str := findTokensAux s []

/-- `CANONICAL_OSIS_ID_ORDER` from the source, verbatim. -/
def CANONICAL_OSIS_ID_ORDER : List Str :=
  ["Gen", "Exod", "Lev", "Num", "Deut", "Josh", "Judg", "Ruth", "1Sam", "2Sam",
   "1Kgs", "2Kgs", "1Chr", "2Chr", "Ezra", "Neh", "Esth", "Job", "Ps", "Prov",
   "Eccl", "Song", "Isa", "Jer", "Lam", "Ezek", "Dan", "Hos", "Joel", "Amos",
   "Obad", "Jonah", "Mic", "Nah", "Hab", "Zeph", "Hag", "Zech", "Mal", "Matt",
   "Mark", "Luke", "John", "Acts", "Rom", "1Cor", "2Cor", "Gal", "Eph", "Phil",
   "Col", "1Thess", "2Thess", "1Tim", "2Tim", "Titus", "Phlm", "Heb", "Jas",
   "1Pet", "2Pet", "1John", "2John", "3John", "Jude", "Rev"].map chars

/-- Worker for Python `list.index` wrapped in `try`/`except` (position or absent). -/
def indexOfAux (x : Str) : List Str → Nat → Option Nat
  | [], _ => none
  | y :: ys, i => if y = x then some i else indexOfAux x ys (i + 1)

/-- 0-based position of an OSIS id in the canonical list, `none` if absent. -/
def canonIndex (x : Str) : Option Nat := indexOfAux x CANONICAL_OSIS_ID_ORDER 0

/-! ## Data model (the Django models, as pure records) -/

structure Book where
  osis_id : Str
  name : Str
  book_order : Nat
deriving DecidableEq, Repr

structure Chapter where
  book : Str
  chapter_number : Nat
  osis_id : Str
deriving DecidableEq, Repr

/-- A chapter is keyed by its book's `osis_id` and its number. -/
abbrev ChapKey := Str × Nat

structure Verse where
  chapter : ChapKey
  verse_number : Nat
  osis_id : Str
  text : Str
deriving DecidableEq, Repr

/-- A verse is keyed by its chapter key and its number. -/
abbrev VerseKey := ChapKey × Nat

structure WordStrong where
  verse : VerseKey
  text : Str
  position : Nat
  strong_ids : Option Str
deriving DecidableEq, Repr

structure Counters where
  books : Nat
  chapters : Nat
  verses : Nat
  words : Nat
  words_in_w : Nat
  text_fragments : Nat
deriving DecidableEq, Repr

/-- The attributes the source reads from an element via `element.get`. -/
structure Attrs where
  type : Option Str
  osisID : Option Str
  sID : Option Str
  eID : Option Str
  n : Option Str
  lemma_attr : Option Str
deriving DecidableEq, Repr

def noAttrs : Attrs := ⟨none, none, none, none, none, none⟩

/-- One `iterparse` event.  A start event carries what the source reads there
(attributes and, for book divs, the `title` sub-element's text); an end event
carries attributes, `element.text` and `element.tail`. -/
inductive Event where
  | startEv (local_name : Str) (attrs : Attrs) (titleText : Option Str)
  | endEv (local_name : Str) (attrs : Attrs) (text : Option Str) (tail : Option Str)
deriving DecidableEq, Repr

/-- Python truthiness of an optional string attribute value. -/
def truthy : Option Str → Bool
  | none => false
  | some s => decide (s ≠ [])

/-- The whole mutable state of `run_import`: local variables plus the stored
records and a log of the sink calls. -/
structure ImportState where
  books : List Book
  chapters : List Chapter
  verses : List Verse
  current_book : Option Str
  current_chapter : Option ChapKey
  current_verse_obj : Option VerseKey
  is_in_verse_scope : Bool
  words_to_create : List WordStrong
  verse_text_parts : List Str
  position_counter : Nat
  counters : Counters
  warnings : List Str
  text_updates : List (VerseKey × Str)
  bulk_batches : List (List WordStrong)
deriving DecidableEq, Repr

def initState : ImportState :=
  { books := [], chapters := [], verses := [],
    current_book := none, current_chapter := none, current_verse_obj := none,
    is_in_verse_scope := false, words_to_create := [], verse_text_parts := [],
    position_counter := 0, counters := ⟨0, 0, 0, 0, 0, 0⟩,
    warnings := [], text_updates := [], bulk_batches := [] }

/-! ## The event handlers (`run_import`'s loop body, phase by phase)

The source's loop body is: on `start`, an `if`/`elif` chain for book divs,
chapters and verse-span opens; on `end`, three sequential blocks: text
collection (lines 143-150), tokenization (lines 155-173), and verse
finalization (lines 177-197). -/

/-- Book title fallback: `title.text.strip() if title is not None and title.text
else "Titre Manquant"` (lines 95-96). -/
def bookTitleOf : Option Str → Str
  | some t => if t ≠ [] then strip t else chars "Titre Manquant"
  | none => chars "Titre Manquant"

/-- `Book.objects.get_or_create(osis_id=..., defaults=...)` followed by setting
`current_book` and bumping the book counter when created (lines 106-110). -/
def bookCreate (st : ImportState) (osis_id book_title : Str) (order : Nat) : ImportState :=
  match st.books.find? (fun b => b.osis_id == osis_id) with
  | some _ => { st with current_book := some osis_id }
  | none =>
    { st with books := st.books ++ [⟨osis_id, book_title, order⟩],
              current_book := some osis_id,
              counters := { st.counters with books := st.counters.books + 1 } }

/-- The book-div start branch (lines 94-110). -/
def bookStart (st : ImportState) (attrs : Attrs) (titleText : Option Str) : ImportState :=
  let osis_id := strip (attrs.osisID.getD [])
  if osis_id ≠ [] then
    match canonIndex osis_id with
    | some i => bookCreate st osis_id (bookTitleOf titleText) (i + 1)
    | none =>
      bookCreate { st with warnings := st.warnings ++ [osis_id] }
        osis_id (bookTitleOf titleText) 999
  else st

/-- The chapter start branch, given `current_book = b` (lines 112-118). -/
def chapterStart (st : ImportState) (attrs : Attrs) (b : Str) : ImportState :=
  let osis_id_attr := strip (attrs.osisID.getD [])
  let num_str := strip ((splitDot osis_id_attr).getLastD [])
  if isdigit num_str then
    let chapter_number := toNatDigits num_str
    match st.chapters.find? (fun ch => ch.book == b && ch.chapter_number == chapter_number) with
    | some _ => { st with current_chapter := some (b, chapter_number) }
    | none =>
      { st with chapters := st.chapters ++ [⟨b, chapter_number, osis_id_attr⟩],
                current_chapter := some (b, chapter_number),
                counters := { st.counters with chapters := st.counters.chapters + 1 } }
  else st

/-- The unconditional resets at verse-span open (lines 123-126). -/
def resetVerseBuffers (st : ImportState) : ImportState :=
  { st with is_in_verse_scope := true, words_to_create := [],
            verse_text_parts := [], position_counter := 0 }

/-- `Verse.objects.get_or_create` keyed by chapter and number, with the
placeholder text default, then setting `current_verse_obj` (lines 131-135). -/
def verseCreate (st : ImportState) (attrs : Attrs) (c : ChapKey) (verse_number : Nat) :
    ImportState :=
  match st.verses.find? (fun v => v.chapter == c && v.verse_number == verse_number) with
  | some _ => { st with current_verse_obj := some (c, verse_number) }
  | none =>
    { st with verses := st.verses ++
                [⟨c, verse_number, strip (attrs.osisID.getD []), chars "[en cours]"⟩],
              current_verse_obj := some (c, verse_number),
              counters := { st.counters with verses := st.counters.verses + 1 } }

/-- The verse-span open branch, given `current_chapter = c` (lines 122-135):
always reset the scope flag, buffers and position counter, then get-or-create
the Verse only when the `n` attribute is numeric. -/
def verseOpen (st : ImportState) (attrs : Attrs) (c : ChapKey) : ImportState :=
  if isdigit (strip (attrs.n.getD [])) then
    verseCreate (resetVerseBuffers st) attrs c (toNatDigits (strip (attrs.n.getD [])))
  else resetVerseBuffers st

/-- Dispatch for a `start` event (the `if`/`elif` chain, lines 93-135). -/
def stepStart (st : ImportState) (local_name : Str) (attrs : Attrs)
    (titleText : Option Str) : ImportState :=
  if local_name = chars "div" ∧ attrs.type = some (chars "book") then
    bookStart st attrs titleText
  else if local_name = chars "chapter" then
    match st.current_book with
    | some b => chapterStart st attrs b
    | none => st
  else if local_name = chars "verse" ∧ truthy attrs.sID then
    match st.current_chapter with
    | some c => verseOpen st attrs c
    | none => st
  else st

/-- Append one fragment to `verse_text_parts`, counting its words as stray
fragments when `countIt` (lines 144-150). -/
def appendFragment (st : ImportState) (t : Str) (countIt : Bool) : ImportState :=
  { st with verse_text_parts := st.verse_text_parts ++ [t],
            counters :=
              if countIt then
                { st.counters with
                    text_fragments := st.counters.text_fragments + (pySplit t).length }
              else st.counters }

/-- Direct-text half of the text accumulator (lines 144-147): word-tag direct
text is appended but not counted as a stray fragment. -/
def textFrag (st : ImportState) (local_name : Str) (text : Option Str) : ImportState :=
  match text with
  | some t => if t ≠ [] then appendFragment st t (decide (local_name ≠ chars "w")) else st
  | none => st

/-- Trailing-text half of the text accumulator (lines 148-150). -/
def tailFrag (st : ImportState) (tail : Option Str) : ImportState :=
  match tail with
  | some t => if t ≠ [] then appendFragment st t true else st
  | none => st

/-- End-event phase 1, the text accumulator (lines 143-150): skipped entirely
for `verse` elements. -/
def collectText (st : ImportState) (local_name : Str) (text tail : Option Str) : ImportState :=
  if st.is_in_verse_scope = true ∧ local_name ≠ chars "verse" then
    tailFrag (textFrag st local_name text) tail
  else st

/-- `element.get('lemma','').replace('strong:','').split()` joined with commas,
`or None` (lines 161-164). -/
def strongIdsOf (lemma_attr : Str) : Option Str :=
  let strong_numbers := pySplit (replaceStrong lemma_attr)
  let sj := joinWith [','] ((strong_numbers.filter (fun s => strip s ≠ [])).map strip)
  if sj = [] then none else some sj

/-- `element.text.strip() if element.text else ''` (line 157). -/
def wordTokenText : Option Str → Str
  | some t => strip t
  | none => []

/-- The word-tag token branch (lines 156-165). -/
def wordToken (st : ImportState) (v : VerseKey) (attrs : Attrs) (text : Option Str) :
    ImportState :=
  if wordTokenText text ≠ [] then
    { st with counters := { st.counters with words_in_w := st.counters.words_in_w + 1 },
              position_counter := st.position_counter + 1,
              words_to_create := st.words_to_create ++
                [⟨v, wordTokenText text, st.position_counter + 1,
                  strongIdsOf (attrs.lemma_attr.getD [])⟩] }
  else st

/-- The tokens built from one trailing text, with consecutive positions
starting right after `p` (lines 169-173). -/
def tailTokens (v : VerseKey) : Nat → List Str → List WordStrong
  | _, [] => []
  | p, t :: ts => ⟨v, t, p + 1, none⟩ :: tailTokens v (p + 1) ts

/-- The trailing-text token branch (lines 167-173). -/
def tailTokenAppend (st : ImportState) (v : VerseKey) (tail : Option Str) : ImportState :=
  match tail with
  | some t =>
    if strip t ≠ [] then
      { st with words_to_create := st.words_to_create ++
                  tailTokens v st.position_counter (findTokens (strip t)),
                position_counter := st.position_counter + (findTokens (strip t)).length }
    else st
  | none => st

/-- End-event phase 2, the tokenizer (lines 155-173): active only inside a
verse span with a current verse; word-tag direct text first, then trailing
text split by the token regex. -/
def tokenize (st : ImportState) (local_name : Str) (attrs : Attrs)
    (text tail : Option Str) : ImportState :=
  if st.is_in_verse_scope = true then
    match st.current_verse_obj with
    | some v =>
      tailTokenAppend (if local_name = chars "w" then wordToken st v attrs text else st) v tail
    | none => st
  else st

/-- Verse text assembly at span close (lines 179-184): join the buffer, strip,
collapse whitespace runs, strip again, prepend `"[<n>] "`. -/
def assembleText (n : Nat) (parts : List Str) : Str :=
  let full_text0 := strip (joinWith [] parts)
  let full_text1 := strip (joinWith [' '] (pySplit full_text0))
  ('[' :: Nat.toDigits 10 n) ++ (']' :: ' ' :: full_text1)

/-- The verse text save: update the stored verse matching the key, log the
sink call (lines 186-187). -/
def applyTextUpdate (st : ImportState) (v : VerseKey) : ImportState :=
  { st with verses := st.verses.map (fun (w : Verse) =>
              if w.chapter = v.1 ∧ w.verse_number = v.2 then
                { w with text := assembleText v.2 st.verse_text_parts } else w),
            text_updates := st.text_updates ++ [(v, assembleText v.2 st.verse_text_parts)] }

/-- `bulk_create` of the buffered tokens, only when the buffer is non-empty
(lines 189-191). -/
def applyBulk (st : ImportState) : ImportState :=
  if st.words_to_create ≠ [] then
    { st with bulk_batches := st.bulk_batches ++ [st.words_to_create],
              counters := { st.counters with
                              words := st.counters.words + st.words_to_create.length } }
  else st

/-- The state resets after finalization (lines 194-197): the position counter
is deliberately not reset there in the source. -/
def resetScope (st : ImportState) : ImportState :=
  { st with is_in_verse_scope := false, current_verse_obj := none,
            words_to_create := [], verse_text_parts := [] }

/-- End-event phase 3, verse finalization (lines 177-197): requires a `verse`
element with a truthy `eID` and a current verse; saves the assembled text,
bulk-creates the buffered tokens if any, and resets the scope state. -/
def finalizeVerse (st : ImportState) (local_name : Str) (attrs : Attrs) : ImportState :=
  if local_name = chars "verse" ∧ truthy attrs.eID then
    match st.current_verse_obj with
    | some v => resetScope (applyBulk (applyTextUpdate st v))
    | none => st
  else st

/-- One iteration of the `for event, element in context` loop (lines 89-197). -/
def step (st : ImportState) : Event → ImportState
  | .startEv ln a tt => stepStart st ln a tt
  | .endEv ln a tx tl => finalizeVerse (tokenize (collectText st ln tx tl) ln a tx tl) ln a

/-- `run_import` on an event stream: the old data is wiped (lines 66-69, the
fresh `initState`) and the loop is folded over the events. -/
def run_import (evs : List Event) : ImportState := evs.foldl step initState

/-! ## The management command wrapper (`handle`, lines 43-59) -/

/-- A snapshot of the stored data (the four Django tables). -/
structure DB where
  books : List Book
  chapters : List Chapter
  verses : List Verse
  words : List WordStrong
deriving DecidableEq, Repr

def emptyDB : DB := ⟨[], [], [], []⟩

/-- The stored data after a run: records plus all bulk-created tokens. -/
def stateDB (st : ImportState) : DB :=
  ⟨st.books, st.chapters, st.verses, st.bulk_batches.flatten⟩

/-- `handle` (lines 43-59): if the input file does not exist, raise
`CommandError` before touching the store (the prior data survives untouched);
otherwise run the import inside the transaction.  The Boolean result is
success. -/
def handle (file_found : Bool) (prior : DB) (evs : List Event) : DB × Bool :=
  if file_found then (stateDB (run_import evs), true) else (prior, false)

/-! ## Whitespace-normalization predicates and string lemmas -/

/-- The first character, if any, is not whitespace. -/
def noLeadWS : Str → Bool
  | [] => true
  | c :: _ => !isPySpace c

/-- No two adjacent whitespace characters (hence no run of two or more). -/
def okRun : Str → Bool
  | [] => true
  | [_] => true
  | a :: b :: rest => (!(isPySpace a && isPySpace b)) && okRun (b :: rest)

/-- Fully normalized prose: no double whitespace, no leading or trailing
whitespace. -/
def normalizedTail (r : Str) : Bool := okRun r && noLeadWS r && noLeadWS r.reverse

theorem noLeadWS_of_all {l : Str} (h : ∀ c ∈ l, isPySpace c = false) :
    noLeadWS l = true := by
  cases l with
  | nil => rfl
  | cons c cs => simpa [noLeadWS] using h c (by simp)

theorem okRun_of_all {l : Str} (h : ∀ c ∈ l, isPySpace c = false) :
    okRun l = true := by
  induction l with
  | nil => rfl
  | cons a l ih =>
    cases l with
    | nil => rfl
    | cons b l2 =>
      have ha : isPySpace a = false := h a (by simp)
      have hrest := ih (fun c hc => h c (by simp [hc]))
      show ((!(isPySpace a && isPySpace b)) && okRun (b :: l2)) = true
      simp [ha, hrest]

theorem okRun_cons {a : Char} {l : Str} (h : okRun (a :: l) = true) : okRun l = true := by
  cases l with
  | nil => rfl
  | cons b l2 =>
    have h2 : ((!(isPySpace a && isPySpace b)) && okRun (b :: l2)) = true := h
    exact (Bool.and_eq_true .. |>.mp h2).2

theorem mem_of_getLast?_eq : ∀ {l : Str} {a : Char}, l.getLast? = some a → a ∈ l := by
  intro l
  induction l with
  | nil => intro a h; simp at h
  | cons x l ih =>
    intro a h
    cases l with
    | nil => simp at h; simp [h]
    | cons y l2 =>
      rw [List.getLast?_cons_cons] at h
      exact List.mem_cons_of_mem _ (ih h)

theorem okRun_append {xs ys : Str} (hx : okRun xs = true) (hy : okRun ys = true)
    (hb : ∀ a b, xs.getLast? = some a → ys.head? = some b →
      (isPySpace a && isPySpace b) = false) :
    okRun (xs ++ ys) = true := by
  induction xs with
  | nil => simpa using hy
  | cons a xs ih =>
    cases xs with
    | nil =>
      cases ys with
      | nil => simpa using hx
      | cons b ys2 =>
        have hab := hb a b (by simp) (by simp)
        have hy2 : okRun (b :: ys2) = true := hy
        show ((!(isPySpace a && isPySpace b)) && okRun (b :: ys2)) = true
        simp [hab, hy2]
    | cons a2 xs2 =>
      have hx2 : ((!(isPySpace a && isPySpace a2)) && okRun (a2 :: xs2)) = true := hx
      rw [Bool.and_eq_true] at hx2
      have hb2 : ∀ c b, (a2 :: xs2).getLast? = some c → ys.head? = some b →
          (isPySpace c && isPySpace b) = false := by
        intro c b hc hbb
        exact hb c b (by rw [List.getLast?_cons_cons]; exact hc) hbb
      have h3 : okRun (a2 :: (xs2 ++ ys)) = true := by simpa using ih hx2.2 hb2
      show ((!(isPySpace a && isPySpace a2)) && okRun (a2 :: xs2 ++ ys)) = true
      simp [hx2.1, h3]

theorem noLeadWS_append_left {xs : Str} (ys : Str) (h : xs ≠ []) :
    noLeadWS (xs ++ ys) = noLeadWS xs := by
  obtain ⟨c, cs, rfl⟩ := List.exists_cons_of_ne_nil h
  rfl

theorem splitWSAux_good : ∀ (t acc : Str), (∀ c ∈ acc, isPySpace c = false) →
    ∀ p ∈ splitWSAux t acc, p ≠ [] ∧ ∀ c ∈ p, isPySpace c = false := by
  intro t
  induction t with
  | nil =>
    intro acc hacc p hp
    by_cases h : acc = []
    · simp [splitWSAux, h] at hp
    · simp [splitWSAux, h] at hp
      subst hp
      refine ⟨by simpa using h, ?_⟩
      intro c hc
      exact hacc c (List.mem_reverse.mp hc)
  | cons c cs ih =>
    intro acc hacc p hp
    by_cases hws : isPySpace c = true
    · by_cases h : acc = []
      · rw [splitWSAux, if_pos hws, if_pos h] at hp
        exact ih [] (by simp) p hp
      · rw [splitWSAux, if_pos hws, if_neg h] at hp
        rcases List.mem_cons.mp hp with hp | hp
        · subst hp
          refine ⟨by simpa using h, ?_⟩
          intro d hd
          exact hacc d (List.mem_reverse.mp hd)
        · exact ih [] (by simp) p hp
    · rw [splitWSAux, if_neg hws] at hp
      refine ih (c :: acc) ?_ p hp
      intro d hd
      rcases List.mem_cons.mp hd with hd | hd
      · subst hd; exact Bool.not_eq_true _ ▸ hws
      · exact hacc d hd

theorem pySplit_good (s : Str) :
    ∀ p ∈ pySplit s, p ≠ [] ∧ ∀ c ∈ p, isPySpace c = false :=
  splitWSAux_good s [] (by simp)

theorem joinWith_ne_nil {sep : Str} {q : Str} {qs : List Str} (hq : q ≠ []) :
    joinWith sep (q :: qs) ≠ [] := by
  obtain ⟨c, cs, rfl⟩ := List.exists_cons_of_ne_nil hq
  cases qs with
  | nil => simp [joinWith]
  | cons r rs => simp [joinWith]

theorem join_space_normalized : ∀ (ps : List Str),
    (∀ p ∈ ps, p ≠ [] ∧ ∀ c ∈ p, isPySpace c = false) →
    okRun (joinWith [' '] ps) = true ∧ noLeadWS (joinWith [' '] ps) = true ∧
      noLeadWS (joinWith [' '] ps).reverse = true := by
  intro ps
  induction ps with
  | nil => intro _; exact ⟨rfl, rfl, rfl⟩
  | cons p ps ih =>
    intro h
    have hp := h p (by simp)
    cases ps with
    | nil =>
      refine ⟨okRun_of_all hp.2, noLeadWS_of_all hp.2, noLeadWS_of_all ?_⟩
      intro c hc
      exact hp.2 c (List.mem_reverse.mp hc)
    | cons q qs =>
      have hrest := ih (fun r hr => h r (by simp [List.mem_cons.mp hr]))
      have hq := h q (by simp)
      have hjne : joinWith [' '] (q :: qs) ≠ [] := joinWith_ne_nil hq.1
      have hshape : joinWith [' '] (p :: q :: qs) =
          p ++ (' ' :: joinWith [' '] (q :: qs)) := by
        show p ++ [' '] ++ joinWith [' '] (q :: qs) = _
        simp
      rw [hshape]
      obtain ⟨d, j2, hj⟩ := List.exists_cons_of_ne_nil hjne
      have hd : isPySpace d = false := by
        have := hrest.2.1
        rw [hj] at this
        simpa [noLeadWS] using this
      refine ⟨?_, ?_, ?_⟩
      · refine okRun_append (okRun_of_all hp.2) ?_ ?_
        · rw [hj]
          show ((!(isPySpace ' ' && isPySpace d)) && okRun (d :: j2)) = true
          have : okRun (d :: j2) = true := hj ▸ hrest.1
          simp [hd, this]
        · intro a b ha hbb
          have hmem := mem_of_getLast?_eq ha
          have : isPySpace a = false := hp.2 a hmem
          simp [this]
      · rw [noLeadWS_append_left _ hp.1]
        exact noLeadWS_of_all hp.2
      · rw [List.reverse_append, List.reverse_cons]
        rw [noLeadWS_append_left _ (by simp [hjne])]
        rw [noLeadWS_append_left _ (by simp [hjne])]
        have := hrest.2.2
        exact this

theorem dropWhile_eq_self_of_noLead {s : Str} (h : noLeadWS s = true) :
    s.dropWhile isPySpace = s := by
  cases s with
  | nil => rfl
  | cons c cs =>
    have : isPySpace c = false := by simpa [noLeadWS] using h
    simp [List.dropWhile_cons, this]

theorem strip_eq_self {s : Str} (h1 : noLeadWS s = true) (h2 : noLeadWS s.reverse = true) :
    strip s = s := by
  unfold strip
  rw [dropWhile_eq_self_of_noLead h1, dropWhile_eq_self_of_noLead h2, List.reverse_reverse]

/-- The text assembled at span close always has the claimed shape: a bracketed
verse number, a single space, then whitespace-normalized prose. -/
theorem assembleText_spec (n : Nat) (parts : List Str) :
    ∃ r, assembleText n parts = ('[' :: Nat.toDigits 10 n) ++ (']' :: ' ' :: r) ∧
      normalizedTail r = true := by
  refine ⟨strip (joinWith [' '] (pySplit (strip (joinWith [] parts)))), rfl, ?_⟩
  cases hps : pySplit (strip (joinWith [] parts)) with
  | nil => rfl
  | cons p ps =>
    have hgood := pySplit_good (strip (joinWith [] parts))
    rw [hps] at hgood
    have hj := join_space_normalized (p :: ps) hgood
    rw [strip_eq_self hj.2.1 hj.2.2]
    simp [normalizedTail, hj.1, hj.2.1, hj.2.2]

theorem dropWhile_all_ws : ∀ (t : Str), (∀ c ∈ t, isPySpace c = true) →
    t.dropWhile isPySpace = [] := by
  intro t
  induction t with
  | nil => intro _; rfl
  | cons c cs ih =>
    intro h
    simp [List.dropWhile_cons, h c (by simp), ih (fun d hd => h d (by simp [hd]))]

theorem strip_eq_nil_of_all_ws {t : Str} (h : ∀ c ∈ t, isPySpace c = true) :
    strip t = [] := by
  unfold strip
  rw [dropWhile_all_ws t h]
  rfl

theorem pySplit_eq_nil_of_all_ws : ∀ (t : Str), (∀ c ∈ t, isPySpace c = true) →
    pySplit t = [] := by
  intro t
  induction t with
  | nil => intro _; rfl
  | cons c cs ih =>
    intro h
    show splitWSAux (c :: cs) [] = []
    rw [splitWSAux, if_pos (h c (by simp)), if_pos rfl]
    exact ih (fun d hd => h d (by simp [hd]))

/-! ## Projection lemmas: which state fields each phase leaves untouched -/

@[simp] theorem appendFragment_words (st : ImportState) (t : Str) (b : Bool) :
    (appendFragment st t b).words_to_create = st.words_to_create := rfl

@[simp] theorem appendFragment_pos (st : ImportState) (t : Str) (b : Bool) :
    (appendFragment st t b).position_counter = st.position_counter := rfl

@[simp] theorem appendFragment_scope (st : ImportState) (t : Str) (b : Bool) :
    (appendFragment st t b).is_in_verse_scope = st.is_in_verse_scope := rfl

@[simp] theorem appendFragment_cv (st : ImportState) (t : Str) (b : Bool) :
    (appendFragment st t b).current_verse_obj = st.current_verse_obj := rfl

@[simp] theorem appendFragment_batches (st : ImportState) (t : Str) (b : Bool) :
    (appendFragment st t b).bulk_batches = st.bulk_batches := rfl

@[simp] theorem appendFragment_verses (st : ImportState) (t : Str) (b : Bool) :
    (appendFragment st t b).verses = st.verses := rfl

@[simp] theorem appendFragment_tu (st : ImportState) (t : Str) (b : Bool) :
    (appendFragment st t b).text_updates = st.text_updates := rfl

@[simp] theorem textFrag_words (st : ImportState) (ln : Str) (tx : Option Str) :
    (textFrag st ln tx).words_to_create = st.words_to_create := by
  cases tx with
  | none => rfl
  | some t => simp only [textFrag]; split <;> simp

@[simp] theorem textFrag_pos (st : ImportState) (ln : Str) (tx : Option Str) :
    (textFrag st ln tx).position_counter = st.position_counter := by
  cases tx with
  | none => rfl
  | some t => simp only [textFrag]; split <;> simp

@[simp] theorem textFrag_scope (st : ImportState) (ln : Str) (tx : Option Str) :
    (textFrag st ln tx).is_in_verse_scope = st.is_in_verse_scope := by
  cases tx with
  | none => rfl
  | some t => simp only [textFrag]; split <;> simp

@[simp] theorem textFrag_cv (st : ImportState) (ln : Str) (tx : Option Str) :
    (textFrag st ln tx).current_verse_obj = st.current_verse_obj := by
  cases tx with
  | none => rfl
  | some t => simp only [textFrag]; split <;> simp

@[simp] theorem textFrag_batches (st : ImportState) (ln : Str) (tx : Option Str) :
    (textFrag st ln tx).bulk_batches = st.bulk_batches := by
  cases tx with
  | none => rfl
  | some t => simp only [textFrag]; split <;> simp

@[simp] theorem textFrag_verses (st : ImportState) (ln : Str) (tx : Option Str) :
    (textFrag st ln tx).verses = st.verses := by
  cases tx with
  | none => rfl
  | some t => simp only [textFrag]; split <;> simp

@[simp] theorem textFrag_tu (st : ImportState) (ln : Str) (tx : Option Str) :
    (textFrag st ln tx).text_updates = st.text_updates := by
  cases tx with
  | none => rfl
  | some t => simp only [textFrag]; split <;> simp

@[simp] theorem tailFrag_words (st : ImportState) (tl : Option Str) :
    (tailFrag st tl).words_to_create = st.words_to_create := by
  cases tl with
  | none => rfl
  | some t => simp only [tailFrag]; split <;> simp

@[simp] theorem tailFrag_pos (st : ImportState) (tl : Option Str) :
    (tailFrag st tl).position_counter = st.position_counter := by
  cases tl with
  | none => rfl
  | some t => simp only [tailFrag]; split <;> simp

@[simp] theorem tailFrag_scope (st : ImportState) (tl : Option Str) :
    (tailFrag st tl).is_in_verse_scope = st.is_in_verse_scope := by
  cases tl with
  | none => rfl
  | some t => simp only [tailFrag]; split <;> simp

@[simp] theorem tailFrag_cv (st : ImportState) (tl : Option Str) :
    (tailFrag st tl).current_verse_obj = st.current_verse_obj := by
  cases tl with
  | none => rfl
  | some t => simp only [tailFrag]; split <;> simp

@[simp] theorem tailFrag_batches (st : ImportState) (tl : Option Str) :
    (tailFrag st tl).bulk_batches = st.bulk_batches := by
  cases tl with
  | none => rfl
  | some t => simp only [tailFrag]; split <;> simp

@[simp] theorem tailFrag_verses (st : ImportState) (tl : Option Str) :
    (tailFrag st tl).verses = st.verses := by
  cases tl with
  | none => rfl
  | some t => simp only [tailFrag]; split <;> simp

@[simp] theorem tailFrag_tu (st : ImportState) (tl : Option Str) :
    (tailFrag st tl).text_updates = st.text_updates := by
  cases tl with
  | none => rfl
  | some t => simp only [tailFrag]; split <;> simp

@[simp] theorem collectText_words (st : ImportState) (ln : Str) (tx tl : Option Str) :
    (collectText st ln tx tl).words_to_create = st.words_to_create := by
  unfold collectText; split <;> simp

@[simp] theorem collectText_pos (st : ImportState) (ln : Str) (tx tl : Option Str) :
    (collectText st ln tx tl).position_counter = st.position_counter := by
  unfold collectText; split <;> simp

@[simp] theorem collectText_scope (st : ImportState) (ln : Str) (tx tl : Option Str) :
    (collectText st ln tx tl).is_in_verse_scope = st.is_in_verse_scope := by
  unfold collectText; split <;> simp

@[simp] theorem collectText_cv (st : ImportState) (ln : Str) (tx tl : Option Str) :
    (collectText st ln tx tl).current_verse_obj = st.current_verse_obj := by
  unfold collectText; split <;> simp

@[simp] theorem collectText_batches (st : ImportState) (ln : Str) (tx tl : Option Str) :
    (collectText st ln tx tl).bulk_batches = st.bulk_batches := by
  unfold collectText; split <;> simp

@[simp] theorem collectText_verses (st : ImportState) (ln : Str) (tx tl : Option Str) :
    (collectText st ln tx tl).verses = st.verses := by
  unfold collectText; split <;> simp

@[simp] theorem collectText_tu (st : ImportState) (ln : Str) (tx tl : Option Str) :
    (collectText st ln tx tl).text_updates = st.text_updates := by
  unfold collectText; split <;> simp

/-- The text accumulator never fires on a `verse` element itself (line 143). -/
theorem collectText_verse_elem (st : ImportState) (tx tl : Option Str) :
    collectText st (chars "verse") tx tl = st := by
  unfold collectText
  rw [if_neg]
  intro h
  exact h.2 rfl

@[simp] theorem wordToken_scope (st : ImportState) (v : VerseKey) (a : Attrs) (tx : Option Str) :
    (wordToken st v a tx).is_in_verse_scope = st.is_in_verse_scope := by
  unfold wordToken; split <;> rfl

@[simp] theorem wordToken_cv (st : ImportState) (v : VerseKey) (a : Attrs) (tx : Option Str) :
    (wordToken st v a tx).current_verse_obj = st.current_verse_obj := by
  unfold wordToken; split <;> rfl

@[simp] theorem wordToken_batches (st : ImportState) (v : VerseKey) (a : Attrs) (tx : Option Str) :
    (wordToken st v a tx).bulk_batches = st.bulk_batches := by
  unfold wordToken; split <;> rfl

@[simp] theorem wordToken_verses (st : ImportState) (v : VerseKey) (a : Attrs) (tx : Option Str) :
    (wordToken st v a tx).verses = st.verses := by
  unfold wordToken; split <;> rfl

@[simp] theorem wordToken_parts (st : ImportState) (v : VerseKey) (a : Attrs) (tx : Option Str) :
    (wordToken st v a tx).verse_text_parts = st.verse_text_parts := by
  unfold wordToken; split <;> rfl

@[simp] theorem wordToken_tu (st : ImportState) (v : VerseKey) (a : Attrs) (tx : Option Str) :
    (wordToken st v a tx).text_updates = st.text_updates := by
  unfold wordToken; split <;> rfl

@[simp] theorem tailTokenAppend_scope (st : ImportState) (v : VerseKey) (tl : Option Str) :
    (tailTokenAppend st v tl).is_in_verse_scope = st.is_in_verse_scope := by
  cases tl with
  | none => rfl
  | some t => simp only [tailTokenAppend]; split <;> rfl

@[simp] theorem tailTokenAppend_cv (st : ImportState) (v : VerseKey) (tl : Option Str) :
    (tailTokenAppend st v tl).current_verse_obj = st.current_verse_obj := by
  cases tl with
  | none => rfl
  | some t => simp only [tailTokenAppend]; split <;> rfl

@[simp] theorem tailTokenAppend_batches (st : ImportState) (v : VerseKey) (tl : Option Str) :
    (tailTokenAppend st v tl).bulk_batches = st.bulk_batches := by
  cases tl with
  | none => rfl
  | some t => simp only [tailTokenAppend]; split <;> rfl

@[simp] theorem tailTokenAppend_verses (st : ImportState) (v : VerseKey) (tl : Option Str) :
    (tailTokenAppend st v tl).verses = st.verses := by
  cases tl with
  | none => rfl
  | some t => simp only [tailTokenAppend]; split <;> rfl

@[simp] theorem tailTokenAppend_parts (st : ImportState) (v : VerseKey) (tl : Option Str) :
    (tailTokenAppend st v tl).verse_text_parts = st.verse_text_parts := by
  cases tl with
  | none => rfl
  | some t => simp only [tailTokenAppend]; split <;> rfl

@[simp] theorem tailTokenAppend_tu (st : ImportState) (v : VerseKey) (tl : Option Str) :
    (tailTokenAppend st v tl).text_updates = st.text_updates := by
  cases tl with
  | none => rfl
  | some t => simp only [tailTokenAppend]; split <;> rfl

@[simp] theorem tokenize_scope (st : ImportState) (ln : Str) (a : Attrs) (tx tl : Option Str) :
    (tokenize st ln a tx tl).is_in_verse_scope = st.is_in_verse_scope := by
  unfold tokenize
  split
  · split
    · split <;> simp
    · rfl
  · rfl

@[simp] theorem tokenize_cv (st : ImportState) (ln : Str) (a : Attrs) (tx tl : Option Str) :
    (tokenize st ln a tx tl).current_verse_obj = st.current_verse_obj := by
  unfold tokenize
  split
  · split
    · split <;> simp
    · rfl
  · rfl

@[simp] theorem tokenize_batches (st : ImportState) (ln : Str) (a : Attrs) (tx tl : Option Str) :
    (tokenize st ln a tx tl).bulk_batches = st.bulk_batches := by
  unfold tokenize
  split
  · split
    · split <;> simp
    · rfl
  · rfl

@[simp] theorem tokenize_verses (st : ImportState) (ln : Str) (a : Attrs) (tx tl : Option Str) :
    (tokenize st ln a tx tl).verses = st.verses := by
  unfold tokenize
  split
  · split
    · split <;> simp
    · rfl
  · rfl

@[simp] theorem tokenize_parts (st : ImportState) (ln : Str) (a : Attrs) (tx tl : Option Str) :
    (tokenize st ln a tx tl).verse_text_parts = st.verse_text_parts := by
  unfold tokenize
  split
  · split
    · split <;> simp
    · rfl
  · rfl

@[simp] theorem tokenize_tu (st : ImportState) (ln : Str) (a : Attrs) (tx tl : Option Str) :
    (tokenize st ln a tx tl).text_updates = st.text_updates := by
  unfold tokenize
  split
  · split
    · split <;> simp
    · rfl
  · rfl

/-! ## Position bookkeeping lemmas -/

theorem range'_one_append (s m n : Nat) :
    List.range' s m ++ List.range' (s + m) n = List.range' s (m + n) := by
  rw [Nat.add_comm m n]
  have h := List.range'_append s m n 1
  simp only [one_mul] at h
  exact h

theorem tailTokens_length (v : VerseKey) : ∀ (p : Nat) (ts : List Str),
    (tailTokens v p ts).length = ts.length := by
  intro p ts
  induction ts generalizing p with
  | nil => rfl
  | cons t ts ih => simp [tailTokens, ih]

theorem tailTokens_map_position (v : VerseKey) : ∀ (p : Nat) (ts : List Str),
    (tailTokens v p ts).map WordStrong.position = List.range' (p + 1) ts.length := by
  intro p ts
  induction ts generalizing p with
  | nil => rfl
  | cons t ts ih =>
    show (p + 1) :: (tailTokens v (p + 1) ts).map WordStrong.position =
      List.range' (p + 1) (ts.length + 1)
    rw [ih, List.range'_succ]

theorem tailTokens_verse (v : VerseKey) : ∀ (p : Nat) (ts : List Str),
    ∀ w ∈ tailTokens v p ts, w.verse = v := by
  intro p ts
  induction ts generalizing p with
  | nil => intro w hw; exact absurd hw (List.not_mem_nil w)
  | cons t ts ih =>
    intro w hw
    simp only [tailTokens] at hw
    rcases List.mem_cons.mp hw with hw | hw
    · subst hw; rfl
    · exact ih (p + 1) w hw

/-! ## The run invariant -/

/-- Within-batch correctness: all tokens of one `bulk_create` batch reference a
single verse and their positions are exactly `1..k` in emission order. -/
def BatchOK (b : List WordStrong) : Prop :=
  (∃ v, ∀ t ∈ b, t.verse = v) ∧ b.map WordStrong.position = List.range' 1 b.length

/-- Invariant maintained by every loop iteration: the token buffer carries
positions `1..len` for the current verse and its length matches the position
counter while a span is open; every emitted batch is well-formed; every stored
verse text is either the placeholder or a bracketed-number prefix followed by
normalized prose. -/
def StInv (st : ImportState) : Prop :=
  (st.is_in_verse_scope = true → st.position_counter = st.words_to_create.length) ∧
  st.words_to_create.map WordStrong.position = List.range' 1 st.words_to_create.length ∧
  (∀ t ∈ st.words_to_create, some t.verse = st.current_verse_obj) ∧
  (st.is_in_verse_scope = false → st.words_to_create = []) ∧
  (∀ b ∈ st.bulk_batches, BatchOK b) ∧
  (∀ v ∈ st.verses, v.text = chars "[en cours]" ∨
    ∃ r, v.text = ('[' :: Nat.toDigits 10 v.verse_number) ++ (']' :: ' ' :: r) ∧
      normalizedTail r = true) ∧
  (∀ u ∈ st.text_updates,
    ∃ r, u.2 = ('[' :: Nat.toDigits 10 u.1.2) ++ (']' :: ' ' :: r) ∧
      normalizedTail r = true)

theorem StInv_of_eq {st st' : ImportState}
    (h1 : st'.words_to_create = st.words_to_create)
    (h2 : st'.position_counter = st.position_counter)
    (h3 : st'.is_in_verse_scope = st.is_in_verse_scope)
    (h4 : st'.current_verse_obj = st.current_verse_obj)
    (h5 : st'.bulk_batches = st.bulk_batches)
    (h6 : st'.verses = st.verses)
    (h7 : st'.text_updates = st.text_updates)
    (h : StInv st) : StInv st' := by
  obtain ⟨i1, i2, i3, i4, i5, i6, i7⟩ := h
  exact ⟨by rw [h3, h2, h1]; exact i1, by rw [h1]; exact i2,
         by rw [h1, h4]; exact i3, by rw [h3, h1]; exact i4,
         by rw [h5]; exact i5, by rw [h6]; exact i6, by rw [h7]; exact i7⟩

theorem StInv_collectText (st : ImportState) (ln : Str) (tx tl : Option Str)
    (h : StInv st) : StInv (collectText st ln tx tl) :=
  StInv_of_eq (by simp) (by simp) (by simp) (by simp) (by simp) (by simp) (by simp) h

theorem StInv_wordToken (st : ImportState) (v : VerseKey) (a : Attrs) (tx : Option Str)
    (hsc : st.is_in_verse_scope = true) (hcv : st.current_verse_obj = some v)
    (h : StInv st) : StInv (wordToken st v a tx) := by
  obtain ⟨i1, i2, i3, i4, i5, i6, i7⟩ := h
  unfold wordToken
  split
  · refine ⟨?_, ?_, ?_, ?_, i5, i6, i7⟩
    · intro _
      show st.position_counter + 1 =
        (st.words_to_create ++
          [(⟨v, wordTokenText tx, st.position_counter + 1,
             strongIdsOf (a.lemma_attr.getD [])⟩ : WordStrong)]).length
      rw [i1 hsc, List.length_append]
      rfl
    · show (st.words_to_create ++
          [(⟨v, wordTokenText tx, st.position_counter + 1,
             strongIdsOf (a.lemma_attr.getD [])⟩ : WordStrong)]).map
            WordStrong.position = _
      rw [List.map_append, i2, i1 hsc, List.length_append]
      have := range'_one_append 1 st.words_to_create.length 1
      simpa [Nat.add_comm] using this
    · intro t ht
      rcases List.mem_append.mp ht with ht | ht
      · exact i3 t ht
      · have : t = ⟨v, wordTokenText tx, st.position_counter + 1,
            strongIdsOf (a.lemma_attr.getD [])⟩ := by simpa using ht
        subst this
        exact hcv.symm
    · intro hf
      exact absurd (show st.is_in_verse_scope = false from hf) (by simp [hsc])
  · exact ⟨i1, i2, i3, i4, i5, i6, i7⟩

theorem StInv_tailTokenAppend (st : ImportState) (v : VerseKey) (tl : Option Str)
    (hsc : st.is_in_verse_scope = true) (hcv : st.current_verse_obj = some v)
    (h : StInv st) : StInv (tailTokenAppend st v tl) := by
  obtain ⟨i1, i2, i3, i4, i5, i6, i7⟩ := h
  cases tl with
  | none => exact ⟨i1, i2, i3, i4, i5, i6, i7⟩
  | some t =>
    simp only [tailTokenAppend]
    split
    · refine ⟨?_, ?_, ?_, ?_, i5, i6, i7⟩
      · intro _
        show st.position_counter + (findTokens (strip t)).length =
          (st.words_to_create ++ tailTokens v st.position_counter (findTokens (strip t))).length
        rw [List.length_append, tailTokens_length, i1 hsc]
      · show (st.words_to_create ++
            tailTokens v st.position_counter (findTokens (strip t))).map WordStrong.position = _
        rw [List.map_append, i2, tailTokens_map_position, i1 hsc, List.length_append,
          tailTokens_length]
        have := range'_one_append 1 st.words_to_create.length (findTokens (strip t)).length
        simpa [Nat.add_comm] using this
      · intro w hw
        rcases List.mem_append.mp hw with hw | hw
        · exact i3 w hw
        · rw [tailTokens_verse v st.position_counter (findTokens (strip t)) w hw]
          exact hcv.symm
      · intro hf
        exact absurd (show st.is_in_verse_scope = false from hf) (by simp [hsc])
    · exact ⟨i1, i2, i3, i4, i5, i6, i7⟩

theorem StInv_tokenize (st : ImportState) (ln : Str) (a : Attrs) (tx tl : Option Str)
    (h : StInv st) : StInv (tokenize st ln a tx tl) := by
  unfold tokenize
  split
  next hsc =>
    split
    next v heq =>
      by_cases hw : ln = chars "w"
      · rw [if_pos hw]
        exact StInv_tailTokenAppend _ _ _ (by simp [hsc]) (by simp [heq])
          (StInv_wordToken _ _ _ _ hsc heq h)
      · rw [if_neg hw]
        exact StInv_tailTokenAppend _ _ _ hsc heq h
    next heq => exact h
  next hsc => exact h

@[simp] theorem applyTextUpdate_words (st : ImportState) (v : VerseKey) :
    (applyTextUpdate st v).words_to_create = st.words_to_create := rfl

@[simp] theorem applyTextUpdate_pos (st : ImportState) (v : VerseKey) :
    (applyTextUpdate st v).position_counter = st.position_counter := rfl

@[simp] theorem applyTextUpdate_scope (st : ImportState) (v : VerseKey) :
    (applyTextUpdate st v).is_in_verse_scope = st.is_in_verse_scope := rfl

@[simp] theorem applyTextUpdate_cv (st : ImportState) (v : VerseKey) :
    (applyTextUpdate st v).current_verse_obj = st.current_verse_obj := rfl

@[simp] theorem applyTextUpdate_batches (st : ImportState) (v : VerseKey) :
    (applyTextUpdate st v).bulk_batches = st.bulk_batches := rfl

@[simp] theorem applyTextUpdate_parts (st : ImportState) (v : VerseKey) :
    (applyTextUpdate st v).verse_text_parts = st.verse_text_parts := rfl

theorem applyTextUpdate_verses (st : ImportState) (v : VerseKey) :
    (applyTextUpdate st v).verses = st.verses.map (fun (w : Verse) =>
      if w.chapter = v.1 ∧ w.verse_number = v.2 then
        { w with text := assembleText v.2 st.verse_text_parts } else w) := rfl

@[simp] theorem applyBulk_words (st : ImportState) :
    (applyBulk st).words_to_create = st.words_to_create := by
  unfold applyBulk; split <;> rfl

@[simp] theorem applyBulk_pos (st : ImportState) :
    (applyBulk st).position_counter = st.position_counter := by
  unfold applyBulk; split <;> rfl

@[simp] theorem applyBulk_scope (st : ImportState) :
    (applyBulk st).is_in_verse_scope = st.is_in_verse_scope := by
  unfold applyBulk; split <;> rfl

@[simp] theorem applyBulk_cv (st : ImportState) :
    (applyBulk st).current_verse_obj = st.current_verse_obj := by
  unfold applyBulk; split <;> rfl

@[simp] theorem applyBulk_verses (st : ImportState) :
    (applyBulk st).verses = st.verses := by
  unfold applyBulk; split <;> rfl

@[simp] theorem applyBulk_tu (st : ImportState) :
    (applyBulk st).text_updates = st.text_updates := by
  unfold applyBulk; split <;> rfl

@[simp] theorem applyBulk_parts (st : ImportState) :
    (applyBulk st).verse_text_parts = st.verse_text_parts := by
  unfold applyBulk; split <;> rfl

@[simp] theorem resetVerseBuffers_verses (st : ImportState) :
    (resetVerseBuffers st).verses = st.verses := rfl

@[simp] theorem resetScope_verses (st : ImportState) :
    (resetScope st).verses = st.verses := rfl

@[simp] theorem resetScope_batches (st : ImportState) :
    (resetScope st).bulk_batches = st.bulk_batches := rfl

@[simp] theorem resetScope_tu (st : ImportState) :
    (resetScope st).text_updates = st.text_updates := rfl

@[simp] theorem resetScope_words (st : ImportState) :
    (resetScope st).words_to_create = [] := rfl

@[simp] theorem resetScope_scope (st : ImportState) :
    (resetScope st).is_in_verse_scope = false := rfl

@[simp] theorem resetScope_cv (st : ImportState) :
    (resetScope st).current_verse_obj = none := rfl

theorem StInv_finalizeVerse (st : ImportState) (ln : Str) (a : Attrs)
    (h : StInv st) : StInv (finalizeVerse st ln a) := by
  obtain ⟨i1, i2, i3, i4, i5, i6, i7⟩ := h
  unfold finalizeVerse
  split
  · split
    next v heq =>
      refine ⟨?_, ?_, ?_, ?_, ?_, ?_, ?_⟩
      · intro hf
        exact absurd (show (false : Bool) = true from hf) (by simp)
      · rfl
      · intro w hw
        exact absurd hw (List.not_mem_nil w)
      · intro _; rfl
      · intro b hb
        rw [resetScope_batches] at hb
        revert hb
        unfold applyBulk
        split
        · intro hb
          rcases List.mem_append.mp hb with hb | hb
          · exact i5 b hb
          · have hbb : b = (applyTextUpdate st v).words_to_create := by simpa using hb
            rw [applyTextUpdate_words] at hbb
            subst hbb
            refine ⟨⟨v, ?_⟩, i2⟩
            intro t ht
            have h3 := i3 t ht
            rw [heq] at h3
            exact (Option.some.inj h3.symm).symm
        · intro hb
          exact i5 b hb
      · intro w hw
        rw [resetScope_verses, applyBulk_verses] at hw
        have hw2 : w ∈ st.verses.map (fun (w0 : Verse) =>
            if w0.chapter = v.1 ∧ w0.verse_number = v.2 then
              { w0 with text := assembleText v.2 st.verse_text_parts } else w0) := hw
        rcases List.mem_map.mp hw2 with ⟨w0, hw0, hmap⟩
        by_cases hc : w0.chapter = v.1 ∧ w0.verse_number = v.2
        · rw [if_pos hc] at hmap
          subst hmap
          right
          obtain ⟨r, hr, hnorm⟩ := assembleText_spec v.2 st.verse_text_parts
          refine ⟨r, ?_, hnorm⟩
          show assembleText v.2 st.verse_text_parts = '[' :: Nat.toDigits 10 w0.verse_number ++ ']' :: ' ' :: r
          rw [hc.2]
          exact hr
        · rw [if_neg hc] at hmap
          subst hmap
          exact i6 w0 hw0
      · intro u hu
        rw [resetScope_tu, applyBulk_tu] at hu
        have hu2 : u ∈ st.text_updates ++
            [(v, assembleText v.2 st.verse_text_parts)] := hu
        rcases List.mem_append.mp hu2 with hu2 | hu2
        · exact i7 u hu2
        · have huu : u = (v, assembleText v.2 st.verse_text_parts) := by simpa using hu2
          subst huu
          exact assembleText_spec v.2 st.verse_text_parts
    next heq => exact ⟨i1, i2, i3, i4, i5, i6, i7⟩
  · exact ⟨i1, i2, i3, i4, i5, i6, i7⟩

@[simp] theorem bookCreate_words (st : ImportState) (oid ttl : Str) (ord : Nat) :
    (bookCreate st oid ttl ord).words_to_create = st.words_to_create := by
  unfold bookCreate; split <;> rfl

@[simp] theorem bookCreate_pos (st : ImportState) (oid ttl : Str) (ord : Nat) :
    (bookCreate st oid ttl ord).position_counter = st.position_counter := by
  unfold bookCreate; split <;> rfl

@[simp] theorem bookCreate_scope (st : ImportState) (oid ttl : Str) (ord : Nat) :
    (bookCreate st oid ttl ord).is_in_verse_scope = st.is_in_verse_scope := by
  unfold bookCreate; split <;> rfl

@[simp] theorem bookCreate_cv (st : ImportState) (oid ttl : Str) (ord : Nat) :
    (bookCreate st oid ttl ord).current_verse_obj = st.current_verse_obj := by
  unfold bookCreate; split <;> rfl

@[simp] theorem bookCreate_batches (st : ImportState) (oid ttl : Str) (ord : Nat) :
    (bookCreate st oid ttl ord).bulk_batches = st.bulk_batches := by
  unfold bookCreate; split <;> rfl

@[simp] theorem bookCreate_verses (st : ImportState) (oid ttl : Str) (ord : Nat) :
    (bookCreate st oid ttl ord).verses = st.verses := by
  unfold bookCreate; split <;> rfl

@[simp] theorem bookCreate_tu (st : ImportState) (oid ttl : Str) (ord : Nat) :
    (bookCreate st oid ttl ord).text_updates = st.text_updates := by
  unfold bookCreate; split <;> rfl

@[simp] theorem bookStart_words (st : ImportState) (a : Attrs) (tt : Option Str) :
    (bookStart st a tt).words_to_create = st.words_to_create := by
  unfold bookStart; dsimp only; split
  · split <;> simp
  · rfl

@[simp] theorem bookStart_pos (st : ImportState) (a : Attrs) (tt : Option Str) :
    (bookStart st a tt).position_counter = st.position_counter := by
  unfold bookStart; dsimp only; split
  · split <;> simp
  · rfl

@[simp] theorem bookStart_scope (st : ImportState) (a : Attrs) (tt : Option Str) :
    (bookStart st a tt).is_in_verse_scope = st.is_in_verse_scope := by
  unfold bookStart; dsimp only; split
  · split <;> simp
  · rfl

@[simp] theorem bookStart_cv (st : ImportState) (a : Attrs) (tt : Option Str) :
    (bookStart st a tt).current_verse_obj = st.current_verse_obj := by
  unfold bookStart; dsimp only; split
  · split <;> simp
  · rfl

@[simp] theorem bookStart_batches (st : ImportState) (a : Attrs) (tt : Option Str) :
    (bookStart st a tt).bulk_batches = st.bulk_batches := by
  unfold bookStart; dsimp only; split
  · split <;> simp
  · rfl

@[simp] theorem bookStart_verses (st : ImportState) (a : Attrs) (tt : Option Str) :
    (bookStart st a tt).verses = st.verses := by
  unfold bookStart; dsimp only; split
  · split <;> simp
  · rfl

@[simp] theorem bookStart_tu (st : ImportState) (a : Attrs) (tt : Option Str) :
    (bookStart st a tt).text_updates = st.text_updates := by
  unfold bookStart; dsimp only; split
  · split <;> simp
  · rfl

@[simp] theorem chapterStart_tu (st : ImportState) (a : Attrs) (b : Str) :
    (chapterStart st a b).text_updates = st.text_updates := by
  unfold chapterStart; dsimp only; split
  · split <;> rfl
  · rfl

@[simp] theorem chapterStart_words (st : ImportState) (a : Attrs) (b : Str) :
    (chapterStart st a b).words_to_create = st.words_to_create := by
  unfold chapterStart; dsimp only; split
  · split <;> rfl
  · rfl

@[simp] theorem chapterStart_pos (st : ImportState) (a : Attrs) (b : Str) :
    (chapterStart st a b).position_counter = st.position_counter := by
  unfold chapterStart; dsimp only; split
  · split <;> rfl
  · rfl

@[simp] theorem chapterStart_scope (st : ImportState) (a : Attrs) (b : Str) :
    (chapterStart st a b).is_in_verse_scope = st.is_in_verse_scope := by
  unfold chapterStart; dsimp only; split
  · split <;> rfl
  · rfl

@[simp] theorem chapterStart_cv (st : ImportState) (a : Attrs) (b : Str) :
    (chapterStart st a b).current_verse_obj = st.current_verse_obj := by
  unfold chapterStart; dsimp only; split
  · split <;> rfl
  · rfl

@[simp] theorem chapterStart_batches (st : ImportState) (a : Attrs) (b : Str) :
    (chapterStart st a b).bulk_batches = st.bulk_batches := by
  unfold chapterStart; dsimp only; split
  · split <;> rfl
  · rfl

@[simp] theorem chapterStart_verses (st : ImportState) (a : Attrs) (b : Str) :
    (chapterStart st a b).verses = st.verses := by
  unfold chapterStart; dsimp only; split
  · split <;> rfl
  · rfl

theorem StInv_verseOpen (st : ImportState) (a : Attrs) (c : ChapKey)
    (h : StInv st) : StInv (verseOpen st a c) := by
  obtain ⟨i1, i2, i3, i4, i5, i6, i7⟩ := h
  unfold verseOpen
  split
  · unfold verseCreate
    split
    · refine ⟨fun _ => rfl, rfl, ?_, fun _ => rfl, i5, i6, i7⟩
      intro w hw
      exact absurd hw (List.not_mem_nil w)
    · refine ⟨fun _ => rfl, rfl, ?_, fun _ => rfl, i5, ?_, i7⟩
      · intro w hw
        exact absurd hw (List.not_mem_nil w)
      · intro w hw
        rcases List.mem_append.mp hw with hw | hw
        · exact i6 w hw
        · have hww : w = ⟨c, toNatDigits (strip (a.n.getD [])),
              strip (a.osisID.getD []), chars "[en cours]"⟩ := by simpa using hw
          subst hww
          left
          rfl
  · refine ⟨fun _ => rfl, rfl, ?_, fun _ => rfl, i5, i6, i7⟩
    intro w hw
    exact absurd hw (List.not_mem_nil w)

theorem StInv_stepStart (st : ImportState) (ln : Str) (a : Attrs) (tt : Option Str)
    (h : StInv st) : StInv (stepStart st ln a tt) := by
  unfold stepStart
  split
  · exact StInv_of_eq (by simp) (by simp) (by simp) (by simp) (by simp) (by simp) (by simp) h
  · split
    · split
      next b heq =>
        exact StInv_of_eq (by simp) (by simp) (by simp) (by simp) (by simp) (by simp) (by simp) h
      next heq => exact h
    · split
      · split
        next c heq => exact StInv_verseOpen st a c h
        next heq => exact h
      · exact h

theorem StInv_step (st : ImportState) (ev : Event) (h : StInv st) : StInv (step st ev) := by
  cases ev with
  | startEv ln a tt => exact StInv_stepStart st ln a tt h
  | endEv ln a tx tl =>
    exact StInv_finalizeVerse _ ln a
      (StInv_tokenize _ ln a tx tl (StInv_collectText st ln tx tl h))

theorem StInv_foldl : ∀ (evs : List Event) (st : ImportState), StInv st →
    StInv (evs.foldl step st) := by
  intro evs
  induction evs with
  | nil => intro st h; exact h
  | cons e es ih => intro st h; exact ih (step st e) (StInv_step st e h)

theorem StInv_init : StInv initState := by
  refine ⟨?_, rfl, ?_, fun _ => rfl, ?_, ?_, ?_⟩
  · intro hf
    exact absurd (show (false : Bool) = true from hf) (by simp)
  · intro w hw
    exact absurd hw (List.not_mem_nil w)
  · intro b hb
    exact absurd hb (List.not_mem_nil b)
  · intro w hw
    exact absurd hw (List.not_mem_nil w)
  · intro u hu
    exact absurd hu (List.not_mem_nil u)

theorem StInv_run (evs : List Event) : StInv (run_import evs) :=
  StInv_foldl evs initState StInv_init

/-! ## Concrete event traces used by the claims -/

/-- The minimal synthetic document of the spec: one book div "Gen", one
chapter "Gen.1", one verse span with `n="1"` whose only word tag has direct
text "In", lemma "strong:H01" and trailing text " the beginning.". -/
def evsC1 : List Event :=
  [ .startEv (chars "div")
      { noAttrs with type := some (chars "book"), osisID := some (chars "Gen") } none,
    .startEv (chars "chapter") { noAttrs with osisID := some (chars "Gen.1") } none,
    .startEv (chars "verse")
      { noAttrs with sID := some (chars "Gen.1.1"), osisID := some (chars "Gen.1.1"),
                     n := some (chars "1") } none,
    .endEv (chars "verse")
      { noAttrs with sID := some (chars "Gen.1.1"), osisID := some (chars "Gen.1.1"),
                     n := some (chars "1") } none none,
    .startEv (chars "w") { noAttrs with lemma_attr := some (chars "strong:H01") } none,
    .endEv (chars "w") { noAttrs with lemma_attr := some (chars "strong:H01") }
      (some (chars "In")) (some (chars " the beginning.")),
    .startEv (chars "verse") { noAttrs with eID := some (chars "Gen.1.1") } none,
    .endEv (chars "verse") { noAttrs with eID := some (chars "Gen.1.1") } none none,
    .endEv (chars "chapter") { noAttrs with osisID := some (chars "Gen.1") } none none,
    .endEv (chars "div")
      { noAttrs with type := some (chars "book"), osisID := some (chars "Gen") } none none ]

/-- A document whose verse milestone span for `Gen.1` verse 1 is opened and
closed twice (the second span reuses the same chapter/number key). -/
def evsDup : List Event :=
  [ .startEv (chars "div")
      { noAttrs with type := some (chars "book"), osisID := some (chars "Gen") } none,
    .startEv (chars "chapter") { noAttrs with osisID := some (chars "Gen.1") } none,
    .startEv (chars "verse")
      { noAttrs with sID := some (chars "Gen.1.1"), n := some (chars "1") } none,
    .endEv (chars "verse")
      { noAttrs with sID := some (chars "Gen.1.1"), n := some (chars "1") } none none,
    .startEv (chars "w") noAttrs none,
    .endEv (chars "w") noAttrs (some (chars "alpha")) none,
    .startEv (chars "verse") { noAttrs with eID := some (chars "Gen.1.1") } none,
    .endEv (chars "verse") { noAttrs with eID := some (chars "Gen.1.1") } none none,
    .startEv (chars "verse")
      { noAttrs with sID := some (chars "Gen.1.1b"), n := some (chars "1") } none,
    .endEv (chars "verse")
      { noAttrs with sID := some (chars "Gen.1.1b"), n := some (chars "1") } none none,
    .startEv (chars "w") noAttrs none,
    .endEv (chars "w") noAttrs (some (chars "beta")) none,
    .startEv (chars "verse") { noAttrs with eID := some (chars "Gen.1.1b") } none,
    .endEv (chars "verse") { noAttrs with eID := some (chars "Gen.1.1b") } none none ]

/-- A document where book "Gen" opens chapter "Gen.1", then book "Exod" starts
and its chapter identifier "Exod.intro" has a non-numeric trailing segment;
a verse span follows under book "Exod". -/
def evsStale : List Event :=
  [ .startEv (chars "div")
      { noAttrs with type := some (chars "book"), osisID := some (chars "Gen") } none,
    .startEv (chars "chapter") { noAttrs with osisID := some (chars "Gen.1") } none,
    .startEv (chars "div")
      { noAttrs with type := some (chars "book"), osisID := some (chars "Exod") } none,
    .startEv (chars "chapter") { noAttrs with osisID := some (chars "Exod.intro") } none,
    .startEv (chars "verse")
      { noAttrs with sID := some (chars "Exod.intro.1"), n := some (chars "1") } none ]

/-- The token batch emitted for the minimal document's single verse. -/
def batchC1 : List WordStrong :=
  [⟨((chars "Gen", 1), 1), chars "In", 1, some (chars "H01")⟩,
   ⟨((chars "Gen", 1), 1), chars "the", 2, none⟩,
   ⟨((chars "Gen", 1), 1), chars "beginning", 3, none⟩,
   ⟨((chars "Gen", 1), 1), chars ".", 4, none⟩]

/-- The verse record produced by the minimal document. -/
def verseC1 : Verse := ⟨(chars "Gen", 1), 1, chars "Gen.1.1", chars "[1] In the beginning."⟩

/-! ## The claims -/

/-- Claim C1: on the minimal synthetic document (one book "Gen", one chapter
"Gen.1", one verse span numbered 1 containing one word tag "In" with lemma
"strong:H01" and trailing text " the beginning."), the run emits
Book(identifier="Gen", rank=1), Chapter(number=1),
Verse(number=1, text="[1] In the beginning."), and exactly the tokens
("In",1,codes="H01"), ("the",2), ("beginning",3), (".",4) in that order. -/
theorem c1_minimal_run :
    (run_import evsC1).books = [⟨chars "Gen", chars "Titre Manquant", 1⟩] ∧
    (run_import evsC1).chapters = [⟨chars "Gen", 1, chars "Gen.1"⟩] ∧
    (run_import evsC1).verses = [verseC1] ∧
    (run_import evsC1).bulk_batches = [batchC1] := by
  refine ⟨?_, ?_, ?_, ?_⟩ <;> decide

/-- Claim C2 (amended): for every batch emitted at a span close, the tokens
all reference the one closing verse and their positions are exactly `1..k`
with no gaps or repeats, strictly increasing in emission order.  The original
claim's run-wide uniqueness of (verse, position) pairs fails when the same
verse key's span is opened twice (see the counterexample). -/
theorem c2_batch_positions (evs : List Event) :
    ∀ b ∈ (run_import evs).bulk_batches,
      (∃ v, ∀ t ∈ b, t.verse = v) ∧
      b.map WordStrong.position = List.range' 1 b.length := by
  intro b hb
  exact (StInv_run evs).2.2.2.2.1 b hb

theorem c2_batch_positions_witness :
    (∃ v, ∀ t ∈ batchC1, t.verse = v) ∧
    batchC1.map WordStrong.position = List.range' 1 batchC1.length :=
  c2_batch_positions evsC1 batchC1 (by decide)

/-- Counterexample to claim C2 as stated: on `evsDup` the verse
(chapter "Gen".1, number 1) has its span opened and closed twice; the run
emits tokens whose (verse, position) pairs are [(k,1), (k,1)] — the pair
(k,1) repeats, so the positions of the tokens emitted for that verse across
the run are 1,1 rather than 1..2, and run-wide uniqueness fails. -/
theorem c2_duplicate_pair_cex :
    (run_import evsDup).bulk_batches.flatten.map (fun t => (t.verse, t.position)) =
      [(((chars "Gen", 1), 1), 1), (((chars "Gen", 1), 1), 1)] := by
  decide

/-- Claim C3: every stored verse text is either the placeholder (span not yet
closed) or — for every verse finalized at span close — starts with "[<n>] "
where n is the verse's stored number, followed by prose with no run of two or
more whitespace characters and no leading or trailing whitespace; moreover
every text update written by a span close has exactly that shape for the
updated verse's number. -/
theorem c3_final_text_shape (evs : List Event) :
    (∀ v ∈ (run_import evs).verses,
      v.text = chars "[en cours]" ∨
      ∃ r, v.text = ('[' :: Nat.toDigits 10 v.verse_number) ++ (']' :: ' ' :: r) ∧
        normalizedTail r = true) ∧
    (∀ u ∈ (run_import evs).text_updates,
      ∃ r, u.2 = ('[' :: Nat.toDigits 10 u.1.2) ++ (']' :: ' ' :: r) ∧
        normalizedTail r = true) :=
  ⟨(StInv_run evs).2.2.2.2.2.1, (StInv_run evs).2.2.2.2.2.2⟩

theorem c3_final_text_shape_witness :
    verseC1.text = chars "[en cours]" ∨
    ∃ r, verseC1.text =
        ('[' :: Nat.toDigits 10 verseC1.verse_number) ++ (']' :: ' ' :: r) ∧
      normalizedTail r = true :=
  (c3_final_text_shape evsC1).1 verseC1 (by decide)

/-- Claim C7: when the input document path does not exist, `handle` fails
before any state mutation — the prior stored data is returned untouched (no
wipe, no creation, no update) and the run reports failure; the import only
runs when the file is found. -/
theorem c7_missing_input (prior : DB) (evs : List Event) :
    handle false prior evs = (prior, false) ∧
    handle true prior evs = (stateDB (run_import evs), true) :=
  ⟨rfl, rfl⟩

/-- Claim C4 (amended): a chapter-start event whose identifier's trailing
segment is non-numeric creates no Chapter and leaves `current_chapter` at its
prior value, always; verse-span opens produce no Verse only when
`current_chapter` is absent (e.g. at the start of a run).  The original
claim's "subsequent verse-span opens under the same book then produce no
Verse" fails when a chapter of an earlier book is still current (see the
counterexample): such verses are attached to the stale chapter. -/
theorem c4_nonnumeric_chapter :
    (∀ (st : ImportState) (a : Attrs) (tt : Option Str),
      isdigit (strip ((splitDot (strip (a.osisID.getD []))).getLastD [])) = false →
        (step st (.startEv (chars "chapter") a tt)).chapters = st.chapters ∧
        (step st (.startEv (chars "chapter") a tt)).current_chapter = st.current_chapter) ∧
    (∀ (st : ImportState) (a : Attrs) (tt : Option Str),
      st.current_chapter = none →
        step st (.startEv (chars "verse") a tt) = st) := by
  constructor
  · intro st a tt hnum
    show (stepStart st (chars "chapter") a tt).chapters = st.chapters ∧
      (stepStart st (chars "chapter") a tt).current_chapter = st.current_chapter
    unfold stepStart
    rw [if_neg (fun h => absurd h.1 (by decide)), if_pos rfl]
    cases hb : st.current_book with
    | none => exact ⟨rfl, rfl⟩
    | some b =>
      have hnum2 : isdigit (strip ((splitDot (strip (a.osisID.getD []))).getLast?.getD [])) =
          false := by
        rw [← List.getLastD_eq_getLast?]
        exact hnum
      simp only [chapterStart]
      rw [if_neg (by simp [hnum2])]
      exact ⟨rfl, rfl⟩
  · intro st a tt hcc
    show stepStart st (chars "verse") a tt = st
    unfold stepStart
    rw [if_neg (fun h => absurd h.1 (by decide)), if_neg (by decide)]
    split
    · rw [hcc]
    · rfl

def stC4 : ImportState :=
  { initState with current_book := some (chars "Gen"),
                   current_chapter := some (chars "Gen", 3) }

def aC4 : Attrs := { noAttrs with osisID := some (chars "Gen.intro") }

def stC4v : ImportState := { initState with current_book := some (chars "Gen") }

def aC4v : Attrs := { noAttrs with sID := some (chars "x"), n := some (chars "1") }

theorem c4_nonnumeric_chapter_witness :
    ((step stC4 (.startEv (chars "chapter") aC4 none)).chapters = stC4.chapters ∧
     (step stC4 (.startEv (chars "chapter") aC4 none)).current_chapter =
       stC4.current_chapter) ∧
    step stC4v (.startEv (chars "verse") aC4v none) = stC4v :=
  ⟨c4_nonnumeric_chapter.1 stC4 aC4 none (by decide),
   c4_nonnumeric_chapter.2 stC4v aC4v none rfl⟩

/-- Counterexample to claim C4 as stated: in `evsStale`, book "Exod" starts
while chapter ("Gen", 1) is still current; the chapter event "Exod.intro" has
a non-numeric trailing segment (state unchanged, as claimed), but the
subsequent verse-span open under book "Exod" does produce a Verse — attached
to the stale chapter ("Gen", 1) — contradicting "produce no Verse". -/
theorem c4_stale_chapter_cex :
    (run_import evsStale).verses.map (fun v => (v.chapter, v.verse_number)) =
      [((chars "Gen", 1), 1)] ∧
    (run_import evsStale).chapters = [⟨chars "Gen", 1, chars "Gen.1"⟩] ∧
    (run_import evsStale).current_book = some (chars "Exod") := by
  refine ⟨?_, ?_, ?_⟩ <;> decide

/-- Claim C5: a book-start whose identifier is absent from the canonical
66-entry table is still created, with rank 999 and a logged warning (the run
continues — `step` is total, no exception path exists in the embedding);
999 is strictly greater than every rank the table can assign; and a book
whose identifier sits at 0-based index i of the table receives rank i+1,
its 1-based position (the table has 66 entries and no duplicates). -/
theorem c5_unknown_book_rank :
    (∀ (st : ImportState) (a : Attrs) (tt : Option Str),
      a.type = some (chars "book") →
      strip (a.osisID.getD []) ≠ [] →
      canonIndex (strip (a.osisID.getD [])) = none →
      st.books.find? (fun bk => bk.osis_id == strip (a.osisID.getD [])) = none →
        (step st (.startEv (chars "div") a tt)).books =
          st.books ++ [⟨strip (a.osisID.getD []), bookTitleOf tt, 999⟩] ∧
        (step st (.startEv (chars "div") a tt)).warnings =
          st.warnings ++ [strip (a.osisID.getD [])]) ∧
    (∀ (st : ImportState) (a : Attrs) (tt : Option Str) (i : Nat),
      a.type = some (chars "book") →
      strip (a.osisID.getD []) ≠ [] →
      canonIndex (strip (a.osisID.getD [])) = some i →
      st.books.find? (fun bk => bk.osis_id == strip (a.osisID.getD [])) = none →
        (step st (.startEv (chars "div") a tt)).books =
          st.books ++ [⟨strip (a.osisID.getD []), bookTitleOf tt, i + 1⟩]) ∧
    (∀ osis_id ∈ CANONICAL_OSIS_ID_ORDER, ∃ i, canonIndex osis_id = some i ∧ i + 1 < 999) ∧
    CANONICAL_OSIS_ID_ORDER.length = 66 ∧ CANONICAL_OSIS_ID_ORDER.Nodup := by
  refine ⟨?_, ?_, by decide, by decide, by decide⟩
  · intro st a tt hty hid hunk hnew
    show (stepStart st (chars "div") a tt).books = _ ∧
      (stepStart st (chars "div") a tt).warnings = _
    unfold stepStart
    rw [if_pos ⟨rfl, hty⟩]
    unfold bookStart
    dsimp only
    rw [if_pos hid, hunk]
    unfold bookCreate
    dsimp only
    rw [hnew]
    exact ⟨rfl, rfl⟩
  · intro st a tt i hty hid hidx hnew
    show (stepStart st (chars "div") a tt).books = _
    unfold stepStart
    rw [if_pos ⟨rfl, hty⟩]
    unfold bookStart
    dsimp only
    rw [if_pos hid, hidx]
    unfold bookCreate
    dsimp only
    rw [hnew]

def aTob : Attrs :=
  { noAttrs with type := some (chars "book"), osisID := some (chars "Tobit") }

theorem c5_unknown_book_rank_witness :
    (step initState (.startEv (chars "div") aTob none)).books =
      initState.books ++ [⟨strip (aTob.osisID.getD []), bookTitleOf none, 999⟩] ∧
    (step initState (.startEv (chars "div") aTob none)).warnings =
      initState.warnings ++ [strip (aTob.osisID.getD [])] :=
  c5_unknown_book_rank.1 initState aTob none rfl (by decide) (by decide) rfl

/-- Claim C6 (amended): verse creation at span open is idempotent by key —
re-encountering an existing (chapter, number) leaves the stored verses
unchanged and re-points `current_verse_obj` at the existing key — and across
any single event the stored verses are either untouched, extended by one
placeholder verse, or modified only in the text field of the verses matching
the closing span's key, and that last mutation happens only on a span-close
event.  The original "mutated exactly once" fails when a verse key's span is
opened and closed twice: the text is then written once per span close (see
the counterexample). -/
theorem c6_verse_idempotent_frame :
    (∀ (st : ImportState) (a : Attrs) (tt : Option Str) (c : ChapKey) (nv : Nat),
      st.current_chapter = some c →
      truthy a.sID = true →
      isdigit (strip (a.n.getD [])) = true →
      toNatDigits (strip (a.n.getD [])) = nv →
      (st.verses.find? (fun v => v.chapter == c && v.verse_number == nv)).isSome = true →
        (step st (.startEv (chars "verse") a tt)).verses = st.verses ∧
        (step st (.startEv (chars "verse") a tt)).current_verse_obj = some (c, nv)) ∧
    (∀ (st : ImportState) (ev : Event),
      (step st ev).verses = st.verses ∨
      (∃ nv : Verse, (step st ev).verses = st.verses ++ [nv] ∧
        nv.text = chars "[en cours]") ∨
      (∃ (k : VerseKey) (txt : Str),
        (step st ev).verses = st.verses.map (fun (w : Verse) =>
          if w.chapter = k.1 ∧ w.verse_number = k.2 then { w with text := txt } else w) ∧
        ∃ (ln : Str) (a : Attrs) (tx tl : Option Str),
          ev = .endEv ln a tx tl ∧ ln = chars "verse" ∧ truthy a.eID = true)) := by
  constructor
  · intro st a tt c nv hcc hsid hdig hnv hex
    show (stepStart st (chars "verse") a tt).verses = st.verses ∧
      (stepStart st (chars "verse") a tt).current_verse_obj = some (c, nv)
    unfold stepStart
    rw [if_neg (fun h => absurd h.1 (by decide)), if_neg (by decide),
      if_pos ⟨rfl, hsid⟩, hcc]
    dsimp only
    unfold verseOpen
    rw [if_pos hdig]
    unfold verseCreate
    dsimp only
    simp only [resetVerseBuffers_verses]
    subst hnv
    cases hf : st.verses.find? (fun v =>
        v.chapter == c && v.verse_number == toNatDigits (strip (a.n.getD []))) with
    | some w => exact ⟨rfl, rfl⟩
    | none =>
      rw [hf] at hex
      exact absurd hex (by simp)
  · intro st ev
    cases ev with
    | startEv ln a tt =>
      have H : (stepStart st ln a tt).verses = st.verses ∨
          ∃ nv : Verse, (stepStart st ln a tt).verses = st.verses ++ [nv] ∧
            nv.text = chars "[en cours]" := by
        unfold stepStart
        split
        · left; simp
        · split
          · split
            next b heq => left; simp
            next heq => left; rfl
          · split
            · split
              next c heq =>
                unfold verseOpen
                split
                · unfold verseCreate
                  dsimp only
                  split
                  · left; rfl
                  · right
                    exact ⟨_, rfl, rfl⟩
                · left; rfl
              next heq => left; rfl
            · left; rfl
      rcases H with H | ⟨nv, h1, h2⟩
      · left; exact H
      · right; left; exact ⟨nv, h1, h2⟩
    | endEv ln a tx tl =>
      have H : (finalizeVerse (tokenize (collectText st ln tx tl) ln a tx tl) ln a).verses =
            st.verses ∨
          ∃ (k : VerseKey) (txt : Str),
            (finalizeVerse (tokenize (collectText st ln tx tl) ln a tx tl) ln a).verses =
              st.verses.map (fun (w : Verse) =>
                if w.chapter = k.1 ∧ w.verse_number = k.2 then
                  { w with text := txt } else w) ∧
            ln = chars "verse" ∧ truthy a.eID = true := by
        unfold finalizeVerse
        split
        next hcond =>
          split
          next v heq =>
            right
            refine ⟨v, assembleText v.2
              ((tokenize (collectText st ln tx tl) ln a tx tl).verse_text_parts),
              ?_, hcond⟩
            rw [resetScope_verses, applyBulk_verses, applyTextUpdate_verses,
              tokenize_verses, collectText_verses]
          next heq => left; simp
        next => left; simp
      rcases H with H | ⟨k, txt, h1, h2, h3⟩
      · left; exact H
      · right; right; exact ⟨k, txt, h1, ln, a, tx, tl, rfl, h2, h3⟩

def stC6 : ImportState :=
  { initState with current_chapter := some (chars "Gen", 1),
                   verses := [⟨(chars "Gen", 1), 1, chars "Gen.1.1", chars "old"⟩] }

def aC6 : Attrs := { noAttrs with sID := some (chars "x"), n := some (chars "1") }

theorem c6_verse_idempotent_frame_witness :
    (step stC6 (.startEv (chars "verse") aC6 none)).verses = stC6.verses ∧
    (step stC6 (.startEv (chars "verse") aC6 none)).current_verse_obj =
      some ((chars "Gen", 1), 1) :=
  c6_verse_idempotent_frame.1 stC6 aC6 none (chars "Gen", 1) 1 rfl (by decide)
    (by decide) (by decide) (by decide)

/-- Counterexample to claim C6 as stated: in `evsDup` the verse keyed
(("Gen",1),1) is created once but its span closes twice, so its text field is
written twice (two sink update calls for the same key), contradicting
"mutated exactly once". -/
theorem c6_double_update_cex :
    (run_import evsDup).text_updates.map Prod.fst =
      [((chars "Gen", 1), 1), ((chars "Gen", 1), 1)] ∧
    (run_import evsDup).verses.map Verse.text = [chars "[1] beta"] := by
  refine ⟨?_, ?_⟩ <;> decide

/-- Claim C8: a trailing text consisting solely of whitespace contributes
nothing to the tokenizer — the end event behaves exactly as if the element had
no tail at all — and adds nothing to the stray-fragment counter in the text
accumulator (`len(tail.split())` is 0 for whitespace-only text); only trailing
text that is non-empty after trimming produces tokens. -/
theorem c8_ws_tail_ignored :
    (∀ (st : ImportState) (ln : Str) (a : Attrs) (tx : Option Str) (t : Str),
      (∀ c ∈ t, isPySpace c = true) →
        tokenize st ln a tx (some t) = tokenize st ln a tx none) ∧
    (∀ (st : ImportState) (ln : Str) (tx : Option Str) (t : Str),
      (∀ c ∈ t, isPySpace c = true) →
        (collectText st ln tx (some t)).counters = (collectText st ln tx none).counters) := by
  constructor
  · intro st ln a tx t h
    unfold tokenize
    split
    · split
      next v heq =>
        simp only [tailTokenAppend]
        rw [if_neg (by simp [strip_eq_nil_of_all_ws h])]
      next heq => rfl
    · rfl
  · intro st ln tx t h
    unfold collectText
    split
    · simp only [tailFrag]
      split
      · show (appendFragment (textFrag st ln tx) t true).counters =
          (textFrag st ln tx).counters
        unfold appendFragment
        simp [pySplit_eq_nil_of_all_ws t h]
      · rfl
    · rfl

def stC8 : ImportState :=
  { initState with is_in_verse_scope := true,
                   current_verse_obj := some ((chars "Gen", 1), 1) }

theorem c8_ws_tail_ignored_witness :
    tokenize stC8 (chars "w") noAttrs (some (chars "hi")) (some (chars "  ")) =
      tokenize stC8 (chars "w") noAttrs (some (chars "hi")) none ∧
    (collectText stC8 (chars "w") (some (chars "hi")) (some (chars "  "))).counters =
      (collectText stC8 (chars "w") (some (chars "hi")) none).counters :=
  ⟨c8_ws_tail_ignored.1 stC8 (chars "w") noAttrs (some (chars "hi")) (chars "  ")
      (by decide),
   c8_ws_tail_ignored.2 stC8 (chars "w") (some (chars "hi")) (chars "  ") (by decide)⟩

/-- Claim C9: on the end event of the span-close verse milestone itself, with
a current verse, non-whitespace trailing text of the milestone is tokenized
into the closing verse's batch (appended after the buffered tokens, before
finalization emits the batch), while the verse's reconstructed text is
assembled from the text buffer only — it never includes that trailing text,
because the text accumulator skips `verse` elements. -/
theorem c9_eid_tail_tokenized (st : ImportState) (a : Attrs) (t : Str) (v : VerseKey)
    (hsc : st.is_in_verse_scope = true) (hcv : st.current_verse_obj = some v)
    (he : truthy a.eID = true) (ht : strip t ≠ []) :
    (step st (.endEv (chars "verse") a none (some t))).text_updates =
      st.text_updates ++ [(v, assembleText v.2 st.verse_text_parts)] ∧
    (st.words_to_create ++ tailTokens v st.position_counter (findTokens (strip t)) ≠ [] →
      (step st (.endEv (chars "verse") a none (some t))).bulk_batches =
        st.bulk_batches ++
          [st.words_to_create ++ tailTokens v st.position_counter (findTokens (strip t))]) ∧
    (st.words_to_create ++ tailTokens v st.position_counter (findTokens (strip t)) = [] →
      (step st (.endEv (chars "verse") a none (some t))).bulk_batches =
        st.bulk_batches) := by
  have hstep : step st (.endEv (chars "verse") a none (some t)) =
      finalizeVerse (tokenize st (chars "verse") a none (some t)) (chars "verse") a := by
    show finalizeVerse
        (tokenize (collectText st (chars "verse") none (some t)) (chars "verse") a none (some t))
        (chars "verse") a = _
    rw [collectText_verse_elem]
  have htok : tokenize st (chars "verse") a none (some t) =
      { st with
        current_verse_obj := some v,
        words_to_create := st.words_to_create ++
          tailTokens v st.position_counter (findTokens (strip t)),
        position_counter := st.position_counter + (findTokens (strip t)).length } := by
    unfold tokenize
    rw [if_pos hsc, hcv]
    dsimp only
    rw [if_neg (by decide)]
    simp only [tailTokenAppend]
    rw [if_pos ht, hcv]
  rw [hstep, htok]
  unfold finalizeVerse
  rw [if_pos ⟨rfl, he⟩]
  dsimp only
  refine ⟨?_, ?_, ?_⟩
  · rw [resetScope_tu, applyBulk_tu]
    rfl
  · intro hne
    rw [resetScope_batches]
    unfold applyBulk
    rw [if_pos (by simp only [applyTextUpdate_words]; exact hne)]
    rfl
  · intro hnil
    rw [resetScope_batches]
    unfold applyBulk
    rw [if_neg (by simp only [applyTextUpdate_words]; simp [hnil])]
    rfl

def stC9 : ImportState :=
  { initState with is_in_verse_scope := true,
                   current_verse_obj := some ((chars "Gen", 1), 1),
                   verse_text_parts := [chars "Hello"] }

def aC9 : Attrs := { noAttrs with eID := some (chars "Gen.1.1") }

def vC9 : VerseKey := ((chars "Gen", 1), 1)

def tC9 : Str := chars " yes."

theorem c9_eid_tail_tokenized_witness :
    (step stC9 (.endEv (chars "verse") aC9 none (some tC9))).text_updates =
      stC9.text_updates ++ [(vC9, assembleText vC9.2 stC9.verse_text_parts)] ∧
    (stC9.words_to_create ++ tailTokens vC9 stC9.position_counter (findTokens (strip tC9)) ≠ [] →
      (step stC9 (.endEv (chars "verse") aC9 none (some tC9))).bulk_batches =
        stC9.bulk_batches ++
          [stC9.words_to_create ++
            tailTokens vC9 stC9.position_counter (findTokens (strip tC9))]) ∧
    (stC9.words_to_create ++ tailTokens vC9 stC9.position_counter (findTokens (strip tC9)) = [] →
      (step stC9 (.endEv (chars "verse") aC9 none (some tC9))).bulk_batches =
        stC9.bulk_batches) :=
  c9_eid_tail_tokenized stC9 aC9 tC9 vC9 rfl rfl (by decide) (by decide)

/-- Claim C10: when a verse span opens with a non-numeric verse-number
attribute while no verse is current, the span-open still sets the scope flag
and clears the buffers but leaves `current_verse_obj` absent; the matching
span-close event is then a complete no-op — in particular the scope flag is
not reset and stays true — so the text accumulator keeps appending text
fragments after that span-close (until a later span-open resets the
buffers). -/
theorem c10_open_scope_leak :
    (∀ (st : ImportState) (a : Attrs) (tt : Option Str) (c : ChapKey),
      st.current_chapter = some c →
      truthy a.sID = true →
      isdigit (strip (a.n.getD [])) = false →
      st.current_verse_obj = none →
        (step st (.startEv (chars "verse") a tt)).current_verse_obj = none ∧
        (step st (.startEv (chars "verse") a tt)).is_in_verse_scope = true ∧
        (step st (.startEv (chars "verse") a tt)).verse_text_parts = [] ∧
        (step st (.startEv (chars "verse") a tt)).verses = st.verses) ∧
    (∀ (st : ImportState) (a : Attrs) (tx tl : Option Str),
      st.current_verse_obj = none →
        step st (.endEv (chars "verse") a tx tl) = st) ∧
    (∀ (st : ImportState) (ln : Str) (a : Attrs) (u : Str),
      st.is_in_verse_scope = true →
      ln ≠ chars "verse" →
      u ≠ [] →
      st.current_verse_obj = none →
        (step st (.endEv ln a (some u) none)).verse_text_parts =
          st.verse_text_parts ++ [u]) := by
  refine ⟨?_, ?_, ?_⟩
  · intro st a tt c hcc hsid hnd hcv
    show (stepStart st (chars "verse") a tt).current_verse_obj = none ∧
      (stepStart st (chars "verse") a tt).is_in_verse_scope = true ∧
      (stepStart st (chars "verse") a tt).verse_text_parts = [] ∧
      (stepStart st (chars "verse") a tt).verses = st.verses
    unfold stepStart
    rw [if_neg (fun h => absurd h.1 (by decide)), if_neg (by decide),
      if_pos ⟨rfl, hsid⟩, hcc]
    dsimp only
    unfold verseOpen
    rw [if_neg (by simp [hnd])]
    exact ⟨hcv, rfl, rfl, rfl⟩
  · intro st a tx tl hcv
    show finalizeVerse (tokenize (collectText st (chars "verse") tx tl) (chars "verse") a tx tl)
        (chars "verse") a = st
    rw [collectText_verse_elem]
    have htok : tokenize st (chars "verse") a tx tl = st := by
      unfold tokenize
      split
      · rw [hcv]
      · rfl
    rw [htok]
    unfold finalizeVerse
    split
    · rw [hcv]
    · rfl
  · intro st ln a u hsc hln hu hcv
    show (finalizeVerse (tokenize (collectText st ln (some u) none) ln a (some u) none)
        ln a).verse_text_parts = st.verse_text_parts ++ [u]
    have hcoll : collectText st ln (some u) none =
        appendFragment st u (decide (ln ≠ chars "w")) := by
      unfold collectText
      rw [if_pos ⟨hsc, hln⟩]
      simp only [textFrag]
      rw [if_pos hu]
      rfl
    rw [hcoll]
    have htok2 : tokenize (appendFragment st u (decide (ln ≠ chars "w"))) ln a
        (some u) none = appendFragment st u (decide (ln ≠ chars "w")) := by
      unfold tokenize
      split
      · have hcv2 : (appendFragment st u (decide (ln ≠ chars "w"))).current_verse_obj =
            none := hcv
        rw [hcv2]
      · rfl
    rw [htok2]
    unfold finalizeVerse
    split
    next hcond => exact absurd hcond.1 hln
    next => rfl

def stC10 : ImportState :=
  { initState with current_book := some (chars "Gen"),
                   current_chapter := some (chars "Gen", 1) }

def aC10 : Attrs := { noAttrs with sID := some (chars "x"), n := some (chars "intro") }

theorem c10_open_scope_leak_witness :
    (step stC10 (.startEv (chars "verse") aC10 none)).current_verse_obj = none ∧
    (step stC10 (.startEv (chars "verse") aC10 none)).is_in_verse_scope = true ∧
    (step stC10 (.startEv (chars "verse") aC10 none)).verse_text_parts = [] ∧
    (step stC10 (.startEv (chars "verse") aC10 none)).verses = stC10.verses :=
  c10_open_scope_leak.1 stC10 aC10 none (chars "Gen", 1) rfl (by decide) (by decide) rfl

end OsisImport
